import Mathlib

/-!
Shallow embedding of the ingestion pipeline of `src/api/app/ingest.py`
(chunking, content-addressed deduplication, directory ingestion) together
with the job-status endpoint, and proofs of the specified properties.

Python strings are modelled as `List Char` (a Python `str` is a sequence of
code points); Python's non-negative integers as `Nat`.  Python's
`max(0, min(overlap, chunk_size - 1))` agrees with the `Nat` rendering
`max 0 (min overlap (chunk_size - 1))` because truncated subtraction sends
exactly the negative intermediate values to `0`, which is where the Python
`max 0` clamp sends them as well.  `hashlib.sha1(...).hexdigest()` is
embedded as a full executable SHA-1 over byte lists, checked below against
the FIPS 180-1 test vector.  Python exceptions are `Except.error`; an
`Except.error` value returned by an embedded function is an exception
escaping the corresponding Python call.
-/

namespace AISLM

/-- Python slice `text[start:stop]` for `0 ≤ start ≤ stop` (character based). -/
def pySlice (text : List Char) (start stop : Nat) : List Char :=
  (text.drop start).take (stop - start)

/-- The `while start < n` loop of `_chunk` (src/api/app/ingest.py:22-27),
instrumented to also record each window's start position: each element is
`(start, text[start:end])` with `end = min (start + chunk_size) n`; on
`end = n` the loop breaks, otherwise `start = max (end - overlap) (start + 1)`. -/
def chunkLoop (text : List Char) (chunk_size overlap : Nat) (start : Nat) :
    List (Nat × List Char) :=
  if h : start < text.length then
    let e := min (start + chunk_size) text.length
    (start, pySlice text start e) ::
      (if e = text.length then []
       else chunkLoop text chunk_size overlap (max (e - overlap) (start + 1)))
  else []
  termination_by text.length - start
  decreasing_by
    have h1 : start + 1 ≤ max (min (start + chunk_size) text.length - overlap) (start + 1) :=
      le_max_right _ _
    omega

/-- `_chunk` (src/api/app/ingest.py:19-28): empty text yields `[]`; otherwise
the overlap is clamped to `[0, chunk_size - 1]` and the loop is run from 0.
The returned value keeps only the window texts, as in the source. -/
def _chunk (text : List Char) (chunk_size : Nat := 800) (overlap : Nat := 120) :
    List (List Char) :=
  if text.isEmpty then []
  else
    (chunkLoop text chunk_size (max 0 (min overlap (chunk_size - 1))) 0).map
      (fun pr => pr.2)

/-- UTF-8 encoding of a single code point (semantics of Python `str.encode`
per character). -/
def utf8EncodeChar (c : Char) : List Nat :=
  let n := c.toNat
  if n < 128 then [n]
  else if n < 2048 then [192 + n / 64, 128 + n % 64]
  else if n < 65536 then [224 + n / 4096, 128 + (n / 64) % 64, 128 + n % 64]
  else [240 + n / 262144, 128 + (n / 4096) % 64, 128 + (n / 64) % 64, 128 + n % 64]

/-- UTF-8 bytes of a string: `ch.encode("utf-8")` in src/api/app/ingest.py:46. -/
def utf8Bytes (s : List Char) : List Nat :=
  s.flatMap utf8EncodeChar

/-- Rotate a 32-bit word left by `k` (used with `0 < k < 32`, word `n < 2^32`). -/
def rotl (k n : Nat) : Nat :=
  ((n <<< k) % 4294967296) ||| (n >>> (32 - k))

/-- SHA-1 round function. -/
def sha1F (i b c d : Nat) : Nat :=
  if i < 20 then (b &&& c) ||| ((b ^^^ 4294967295) &&& d)
  else if i < 40 then b ^^^ c ^^^ d
  else if i < 60 then (b &&& c) ||| (b &&& d) ||| (c &&& d)
  else b ^^^ c ^^^ d

/-- SHA-1 round constants. -/
def sha1K (i : Nat) : Nat :=
  if i < 20 then 1518500249
  else if i < 40 then 1859775393
  else if i < 60 then 2400959708
  else 3395469782

/-- `k` bytes of `n`, big-endian. -/
def beBytes : Nat → Nat → List Nat
  | 0, _ => []
  | k + 1, n => beBytes k (n >>> 8) ++ [n % 256]

/-- Big-endian 32-bit words of a byte list. -/
def toWords : List Nat → List Nat
  | b0 :: b1 :: b2 :: b3 :: rest =>
    (((b0 <<< 8 ||| b1) <<< 8 ||| b2) <<< 8 ||| b3) :: toWords rest
  | _ => []

/-- Message-schedule expansion; `rws` holds the words produced so far, most
recent first; `k` more words are prepended; the full schedule is returned in
order. -/
def expandWords : Nat → List Nat → List Nat
  | 0, rws => rws.reverse
  | k + 1, rws =>
    expandWords k
      (rotl 1 (rws.getD 2 0 ^^^ rws.getD 7 0 ^^^ rws.getD 13 0 ^^^ rws.getD 15 0) :: rws)

/-- The 80 SHA-1 rounds over the message schedule. -/
def sha1Rounds : Nat → List Nat → Nat × Nat × Nat × Nat × Nat → Nat × Nat × Nat × Nat × Nat
  | _, [], st => st
  | i, w :: ws, (a, b, c, d, e) =>
    sha1Rounds (i + 1) ws
      ((rotl 5 a + sha1F i b c d + e + sha1K i + w) % 4294967296, a, rotl 30 b, c, d)

/-- One 64-byte SHA-1 block step. -/
def processBlock (h : Nat × Nat × Nat × Nat × Nat) (block : List Nat) :
    Nat × Nat × Nat × Nat × Nat :=
  match h, sha1Rounds 0 (expandWords 64 (toWords block).reverse) h with
  | (h0, h1, h2, h3, h4), (a, b, c, d, e) =>
    ((h0 + a) % 4294967296, (h1 + b) % 4294967296, (h2 + c) % 4294967296,
     (h3 + d) % 4294967296, (h4 + e) % 4294967296)

/-- Process `k` 64-byte blocks. -/
def processBlocksN : Nat → List Nat → Nat × Nat × Nat × Nat × Nat → Nat × Nat × Nat × Nat × Nat
  | 0, _, h => h
  | k + 1, bytes, h => processBlocksN k (bytes.drop 64) (processBlock h (bytes.take 64))

/-- SHA-1 padding: a `0x80` byte, zeros up to 56 mod 64, then the 8-byte
big-endian bit length. -/
def sha1Pad (msg : List Nat) : List Nat :=
  msg ++ 128 :: List.replicate ((119 - msg.length % 64) % 64) 0 ++ beBytes 8 (8 * msg.length)

/-- The five 32-bit state words of the SHA-1 digest of a byte list. -/
def sha1Digest (msg : List Nat) : List Nat :=
  let padded := sha1Pad msg
  match processBlocksN (padded.length / 64) padded
      (1732584193, 4023233417, 2562383102, 271733878, 3285377520) with
  | (h0, h1, h2, h3, h4) => [h0, h1, h2, h3, h4]

/-- Lower-case hex digit. -/
def hexChar (n : Nat) : Char :=
  if n < 10 then Char.ofNat (48 + n) else Char.ofNat (87 + n)

/-- Eight hex digits of a 32-bit word, most significant first. -/
def hex8 (n : Nat) : List Char :=
  [hexChar ((n >>> 28) % 16), hexChar ((n >>> 24) % 16), hexChar ((n >>> 20) % 16),
   hexChar ((n >>> 16) % 16), hexChar ((n >>> 12) % 16), hexChar ((n >>> 8) % 16),
   hexChar ((n >>> 4) % 16), hexChar (n % 16)]

/-- `hashlib.sha1(bytes).hexdigest()` (src/api/app/ingest.py:46). -/
def sha1Hex (msg : List Nat) : String :=
  String.mk ((sha1Digest msg).flatMap hex8)

/-- Metadata attached to an accepted chunk: `{"source": str(p), "digest": h}`
(src/api/app/ingest.py:50). -/
structure Meta where
  source : String
  digest : String
deriving DecidableEq

/-- A `(text, metadata)` pair accumulated for `upsert_texts`. -/
abbrev Pair := List Char × Meta

/-- A filesystem entry as produced by `base.rglob("*")`: its path, whether it
is a directory, its lower-cased suffix (`p.suffix.lower()`), what
`_read_text_file` returns for it (total: `errors="ignore"` decoding), and
what `_read_pdf_file` returns for it (`Except.error` models a raised
extraction exception, e.g. from `pypdf`). -/
structure Entry where
  path : String
  isDir : Bool
  suffix : String
  textRead : List Char
  pdfRead : Except String (List Char)

/-- The per-file chunk loop of `_ingest_dir` (src/api/app/ingest.py:45-50):
hash each chunk's UTF-8 bytes, skip digests already in `seen`, otherwise
record the digest and append the `(text, {source, digest})` pair. -/
def dedupChunks (src : String) (chunks : List (List Char)) (pairs : List Pair)
    (seen : List String) : List Pair × List String :=
  match chunks with
  | [] => (pairs, seen)
  | ch :: rest =>
    let h := sha1Hex (utf8Bytes ch)
    if h ∈ seen then dedupChunks src rest pairs seen
    else dedupChunks src rest (pairs ++ [(ch, ⟨src, h⟩)]) (h :: seen)

/-- The file loop of `_ingest_dir` (src/api/app/ingest.py:36-50): directories
are skipped, `.md`/`.txt` files are read with `_read_text_file`, `.pdf`
files with `_read_pdf_file` (whose exception, if any, propagates), other
suffixes are skipped; each read file goes through `_chunk` and the dedup
loop.  There is no `try`/`except` in the source, so a `.pdf` read error
aborts the whole traversal. -/
def collectPairs (entries : List Entry) (pairs : List Pair) (seen : List String) :
    Except String (List Pair) :=
  match entries with
  | [] => .ok pairs
  | e :: rest =>
    if e.isDir then collectPairs rest pairs seen
    else if e.suffix = ".md" ∨ e.suffix = ".txt" then
      match dedupChunks e.path (_chunk e.textRead) pairs seen with
      | (pairs2, seen2) => collectPairs rest pairs2 seen2
    else if e.suffix = ".pdf" then
      match e.pdfRead with
      | .error msg => .error msg
      | .ok raw =>
        match dedupChunks e.path (_chunk raw) pairs seen with
        | (pairs2, seen2) => collectPairs rest pairs2 seen2
    else collectPairs rest pairs seen

/-- The dict returned by `_ingest_dir`: either
`{"status": "error", "message": msg}` or `{"status": "ok", "ingested": n}`. -/
inductive RunResult
  | error (message : String)
  | ok (ingested : Nat)
deriving DecidableEq

/-- `_ingest_dir` (src/api/app/ingest.py:30-54).  The filesystem argument is
`none` when `base.exists()` is false, otherwise the entries in `rglob`
order.  The second component of the returned pair records the batches
passed to `upsert_texts` (src/api/app/vectorstore.py): the whole accepted
list in one call when non-empty, otherwise no call.  An outer
`Except.error` is an uncaught Python exception escaping `_ingest_dir`. -/
def _ingest_dir (dir_path : String) (fs : Option (List Entry)) :
    Except String (RunResult × List (List Pair)) :=
  match fs with
  | none => .ok (.error (dir_path ++ " not found"), [])
  | some entries =>
    match collectPairs entries [] [] with
    | .error msg => .error msg
    | .ok pairs =>
      if pairs.isEmpty then .ok (.ok 0, [])
      else .ok (.ok pairs.length, [pairs])

/-- Invariant of the dedup loop: accumulated pair digests are distinct, each
is registered in `seen`, and each is the SHA-1 of the pair's own text. -/
def IngestInv (pairs : List Pair) (seen : List String) : Prop :=
  (pairs.map fun pr => pr.2.digest).Nodup ∧
  ∀ pr ∈ pairs, pr.2.digest ∈ seen ∧ pr.2.digest = sha1Hex (utf8Bytes pr.1)

/-- Modelled from the spec: terminal job states of the status tracker.  The
spec keeps job records as `{state, result}` with `result` null until
terminal; Celery's `r.ready()` is true exactly in a terminal state. -/
def READY_STATES : List String := ["SUCCESS", "FAILURE", "REVOKED"]

/-- Modelled from the spec: a job record `{state, result}` kept by the result
backend, `result` null until terminal. -/
structure JobRecord where
  state : String
  result : Option String
deriving DecidableEq

/-- The result backend's persisted state: job records keyed by opaque ID. -/
abbrev Backend := List (String × JobRecord)

/-- Modelled from the spec: `AsyncResult(task_id, app=celery)` against the
result backend.  A task id with a stored record reports that record; an id
the backend has never seen reports state `"PENDING"` with a null result,
which is Celery's documented behavior for unknown (and for enqueued but
not-yet-started) task ids. -/
def asyncResult (backend : Backend) (task_id : String) : JobRecord :=
  match backend.find? (fun kv => kv.1 == task_id) with
  | some kv => kv.2
  | none => ⟨"PENDING", none⟩

/-- `r.ready()`: whether the reported state is terminal. -/
def jobReady (r : JobRecord) : Bool := READY_STATES.contains r.state

/-- The JSON object returned by the status endpoint. -/
structure StatusResponse where
  task_id : String
  state : String
  result : Option String
deriving DecidableEq

/-- `ingest_status` (src/api/app/ingest.py:66-69): echo the task id, report
the backend state, and attach the result only when `r.ready()`. -/
def ingest_status (task_id : String) (backend : Backend) : StatusResponse :=
  let r := asyncResult backend task_id
  { task_id := task_id, state := r.state,
    result := if jobReady r then r.result else none }

/-! ## Helper lemmas: the chunk loop -/

theorem chunkLoop_nil (cs ov start : Nat) : chunkLoop [] cs ov start = [] := by
  rw [chunkLoop]; simp

theorem chunkLoop_head (text : List Char) (cs ov start : Nat) (h : start < text.length) :
    (chunkLoop text cs ov start).head? =
      some (start, pySlice text start (min (start + cs) text.length)) := by
  rw [chunkLoop]
  simp [h]

theorem chunkLoop_mem (text : List Char) (cs ov : Nat) (start : Nat)
    (pr : Nat × List Char) :
    pr ∈ chunkLoop text cs ov start →
    start ≤ pr.1 ∧ pr.1 < text.length ∧
      pr.2 = pySlice text pr.1 (min (pr.1 + cs) text.length) := by
  induction start using chunkLoop.induct text cs ov with
  | case1 s hs e ih =>
    intro hmem
    rw [chunkLoop] at hmem
    simp only [hs, dif_pos] at hmem
    rcases List.mem_cons.mp hmem with heq | htl
    · subst heq
      exact ⟨le_refl _, hs, rfl⟩
    · by_cases he : min (s + cs) text.length = text.length
      · simp [he] at htl
      · simp only [he, if_false] at htl
        have h2 := ih htl
        have h3 : s + 1 ≤ max (min (s + cs) text.length - ov) (s + 1) := le_max_right _ _
        exact ⟨by omega, h2.2.1, h2.2.2⟩
  | case2 s hs =>
    intro hmem
    rw [chunkLoop] at hmem
    simp [hs] at hmem

theorem chunkLoop_length_le (text : List Char) (cs ov : Nat) (start : Nat) :
    (chunkLoop text cs ov start).length ≤ text.length - start := by
  induction start using chunkLoop.induct text cs ov with
  | case1 s hs e ih =>
    have hE : e = min (s + cs) text.length := rfl
    rw [hE] at ih
    rw [chunkLoop]
    simp only [hs, dif_pos]
    by_cases he : min (s + cs) text.length = text.length
    · simp [he]; omega
    · simp only [he, if_false, List.length_cons]
      have h3 : s + 1 ≤ max (min (s + cs) text.length - ov) (s + 1) := le_max_right _ _
      omega
  | case2 s hs =>
    rw [chunkLoop]; simp [hs]

theorem chunkLoop_chain_lt (text : List Char) (cs ov : Nat) (start : Nat) :
    List.Chain' (fun a b => a.1 < b.1) (chunkLoop text cs ov start) := by
  induction start using chunkLoop.induct text cs ov with
  | case1 s hs e ih =>
    rw [chunkLoop]
    simp only [hs, dif_pos]
    by_cases he : min (s + cs) text.length = text.length
    · simp [he]
    · simp only [he, if_false]
      refine List.chain'_cons'.mpr ⟨?_, ih⟩
      intro b hb
      have hmem : b ∈ chunkLoop text cs ov (max (min (s + cs) text.length - ov) (s + 1)) :=
        List.mem_of_mem_head? hb
      have h2 := chunkLoop_mem text cs ov _ b hmem
      have h3 : s + 1 ≤ max (min (s + cs) text.length - ov) (s + 1) := le_max_right _ _
      omega
  | case2 s hs =>
    rw [chunkLoop]; simp [hs]

theorem chunkLoop_coverage (text : List Char) (cs ov : Nat) (hcs : 1 ≤ cs)
    (pos : Nat) (hpos : pos < text.length) (start : Nat) :
    start ≤ pos →
    ∃ pr ∈ chunkLoop text cs ov start, pr.1 ≤ pos ∧ pos < min (pr.1 + cs) text.length := by
  induction start using chunkLoop.induct text cs ov with
  | case1 s hs e ih =>
    intro hsp
    rw [chunkLoop]
    simp only [hs, dif_pos]
    by_cases hin : pos < min (s + cs) text.length
    · exact ⟨(s, pySlice text s (min (s + cs) text.length)),
        List.mem_cons_self _ _, hsp, hin⟩
    · push_neg at hin
      have he : min (s + cs) text.length ≠ text.length := by omega
      simp only [he, if_false]
      have hnext : max (min (s + cs) text.length - ov) (s + 1) ≤ pos := by
        have h4 : s + 1 ≤ min (s + cs) text.length := by omega
        omega
      obtain ⟨pr, hmem, h1, h2⟩ := ih hnext
      exact ⟨pr, List.mem_cons_of_mem _ hmem, h1, h2⟩
  | case2 s hs =>
    intro hsp
    omega

theorem pySlice_length (text : List Char) (s e : Nat) :
    (pySlice text s e).length = min (e - s) (text.length - s) := by
  simp [pySlice]

theorem pySlice_drop (text : List Char) (s e k : Nat) :
    (pySlice text s e).drop k = pySlice text (s + k) e := by
  unfold pySlice
  rw [List.drop_take, List.drop_drop]
  congr 1
  omega

theorem pySlice_take (text : List Char) (s e k : Nat) (h : k ≤ e - s) :
    (pySlice text s e).take k = pySlice text s (s + k) := by
  unfold pySlice
  rw [List.take_take]
  congr 1
  omega

theorem chunkLoop_chain_struct (text : List Char) (cs ov : Nat) (hov : ov < cs)
    (start : Nat) :
    List.Chain'
      (fun a b => b.1 = a.1 + (cs - ov) ∧ a.2.length = cs ∧
        a.2.drop (cs - ov) = b.2.take ov ∧ (b.2.take ov).length = ov)
      (chunkLoop text cs ov start) := by
  induction start using chunkLoop.induct text cs ov with
  | case1 s hs e ih =>
    have hE : e = min (s + cs) text.length := rfl
    rw [hE] at ih
    rw [chunkLoop]
    simp only [hs, dif_pos]
    by_cases he : min (s + cs) text.length = text.length
    · simp [he]
    · simp only [he, if_false]
      refine List.chain'_cons'.mpr ⟨?_, ih⟩
      intro b hb
      have hlt : s + cs < text.length := by omega
      have hmin : min (s + cs) text.length = s + cs := by omega
      have hnext : max (min (s + cs) text.length - ov) (s + 1) = s + (cs - ov) := by omega
      rw [hnext] at hb
      have hnlt : s + (cs - ov) < text.length := by omega
      rw [chunkLoop_head text cs ov _ hnlt] at hb
      simp only [Option.mem_def, Option.some.injEq] at hb
      subst hb
      rw [hmin]
      refine ⟨rfl, ?_, ?_, ?_⟩
      · rw [pySlice_length]; omega
      · rw [pySlice_drop, pySlice_take]
        · congr 1
          omega
        · have : s + (cs - ov) + cs ≥ s + cs := by omega
          omega
      · rw [List.length_take, pySlice_length]
        omega
  | case2 s hs =>
    rw [chunkLoop]; simp [hs]

theorem chunk_eq_loop (text : List Char) (cs ov : Nat) (hcs : 1 ≤ cs) (hov : ov < cs) :
    _chunk text cs ov = (chunkLoop text cs ov 0).map (fun pr => pr.2) := by
  rw [_chunk]
  have hclamp : max 0 (min ov (cs - 1)) = ov := by omega
  rw [hclamp]
  by_cases hemp : text.isEmpty
  · rw [if_pos hemp, List.isEmpty_iff.mp hemp, chunkLoop_nil]
    rfl
  · rw [if_neg hemp]

/-! ## Helper lemmas: SHA-1 sanity and the dedup invariant -/

set_option maxRecDepth 10000 in
/-- FIPS 180-1 test vector: SHA-1 of the ASCII bytes of `"abc"`, as the
embedded `hashlib.sha1(...).hexdigest()` computes it. -/
theorem sha1Hex_fips_vector :
    sha1Hex (utf8Bytes "abc".toList) = "a9993e364706816aba3e25717850c26c9cd0d89d" := by
  decide

theorem dedupChunks_inv (src : String) (chunks : List (List Char))
    (pairs : List Pair) (seen : List String) (h : IngestInv pairs seen) :
    IngestInv (dedupChunks src chunks pairs seen).1 (dedupChunks src chunks pairs seen).2 := by
  induction chunks generalizing pairs seen with
  | nil => exact h
  | cons ch rest ih =>
    rw [dedupChunks]
    by_cases hmem : sha1Hex (utf8Bytes ch) ∈ seen
    · simp only [hmem, if_pos]
      exact ih pairs seen h
    · simp only [hmem, if_neg, not_false_iff]
      apply ih
      obtain ⟨hnd, hall⟩ := h
      refine ⟨?_, ?_⟩
      · rw [List.map_append]
        rw [List.nodup_append]
        refine ⟨hnd, List.nodup_singleton _, ?_⟩
        intro d hd hd2
        simp only [List.map_cons, List.map_nil, List.mem_singleton] at hd2
        obtain ⟨pr, hpr, hpr2⟩ := List.mem_map.mp hd
        apply hmem
        rw [← hd2, ← hpr2]
        exact (hall pr hpr).1
      · intro pr hpr
        rcases List.mem_append.mp hpr with h1 | h1
        · exact ⟨List.mem_cons_of_mem _ (hall pr h1).1, (hall pr h1).2⟩
        · simp only [List.mem_singleton] at h1
          subst h1
          exact ⟨List.mem_cons_self _ _, rfl⟩

theorem collectPairs_inv (entries : List Entry) (pairs : List Pair)
    (seen : List String) (pairsF : List Pair)
    (h : IngestInv pairs seen)
    (hrun : collectPairs entries pairs seen = .ok pairsF) :
    (pairsF.map fun pr => pr.2.digest).Nodup ∧
    ∀ pr ∈ pairsF, pr.2.digest = sha1Hex (utf8Bytes pr.1) := by
  induction entries generalizing pairs seen with
  | nil =>
    rw [collectPairs] at hrun
    cases hrun
    exact ⟨h.1, fun pr hpr => (h.2 pr hpr).2⟩
  | cons e rest ih =>
    rw [collectPairs] at hrun
    by_cases hdir : e.isDir
    · rw [if_pos hdir] at hrun
      exact ih pairs seen h hrun
    · rw [if_neg hdir] at hrun
      by_cases htxt : e.suffix = ".md" ∨ e.suffix = ".txt"
      · rw [if_pos htxt] at hrun
        exact ih _ _ (dedupChunks_inv _ _ _ _ h) hrun
      · rw [if_neg htxt] at hrun
        by_cases hpdf : e.suffix = ".pdf"
        · rw [if_pos hpdf] at hrun
          cases hread : e.pdfRead with
          | error msg => rw [hread] at hrun; cases hrun
          | ok raw =>
            rw [hread] at hrun
            exact ih _ _ (dedupChunks_inv _ _ _ _ h) hrun
        · rw [if_neg hpdf] at hrun
          exact ih pairs seen h hrun

theorem collectPairs_fst_nodup (entries : List Entry) (pairsF : List Pair)
    (hrun : collectPairs entries [] [] = .ok pairsF) :
    (pairsF.map fun pr => pr.1).Nodup := by
  obtain ⟨hnd, hall⟩ := collectPairs_inv entries [] [] pairsF
    (by constructor <;> simp [IngestInv]) hrun
  have hmap : (pairsF.map fun pr => pr.2.digest) =
      (pairsF.map fun pr => pr.1).map (fun t => sha1Hex (utf8Bytes t)) := by
    rw [List.map_map]
    exact List.map_congr_left fun pr hpr => hall pr hpr
  rw [hmap] at hnd
  exact hnd.of_map

theorem collectPairs_error (path msg : String) (textRead : List Char)
    (post : List Entry) (pre : List Entry) (pairs : List Pair) (seen : List String)
    (hpre : ∀ e ∈ pre, e.isDir = false → e.suffix = ".pdf" → ∃ raw, e.pdfRead = Except.ok raw) :
    collectPairs (pre ++ ⟨path, false, ".pdf", textRead, Except.error msg⟩ :: post) pairs seen =
      Except.error msg := by
  induction pre generalizing pairs seen with
  | nil =>
    rw [List.nil_append, collectPairs]
    simp
  | cons e rest ih =>
    rw [List.cons_append, collectPairs]
    have hpre2 : ∀ e2 ∈ rest, e2.isDir = false → e2.suffix = ".pdf" →
        ∃ raw, e2.pdfRead = Except.ok raw :=
      fun e2 he2 => hpre e2 (List.mem_cons_of_mem _ he2)
    by_cases hdir : e.isDir
    · rw [if_pos hdir]; exact ih _ _ hpre2
    · rw [if_neg hdir]
      by_cases htxt : e.suffix = ".md" ∨ e.suffix = ".txt"
      · rw [if_pos htxt]; exact ih _ _ hpre2
      · rw [if_neg htxt]
        by_cases hpdf : e.suffix = ".pdf"
        · rw [if_pos hpdf]
          obtain ⟨raw, hraw⟩ := hpre e (List.mem_cons_self _ _) (by simpa using hdir) hpdf
          rw [hraw]
          exact ih _ _ hpre2
        · rw [if_neg hpdf]; exact ih _ _ hpre2

/-! ## The claims -/

/-- Claim C1: for every text and every `chunk_size ≥ 1`, after the overlap is
clamped to `[0, chunk_size - 1]` the chunker terminates: the recorded window
start positions are strictly increasing, and the window sequence is finite
(its length is bounded by the text length). -/
theorem claim_C1_chunker_terminates (text : List Char) (chunk_size overlap : Nat)
    (hcs : 1 ≤ chunk_size) :
    List.Chain' (fun a b => a < b)
      ((chunkLoop text chunk_size (max 0 (min overlap (chunk_size - 1))) 0).map
        (fun pr => pr.1)) ∧
    (_chunk text chunk_size overlap).length ≤ text.length := by
  constructor
  · exact (List.chain'_map _).mpr (chunkLoop_chain_lt text _ _ 0)
  · rw [_chunk]
    by_cases hemp : text.isEmpty
    · simp [hemp]
    · rw [if_neg hemp, List.length_map]
      have := chunkLoop_length_le text chunk_size (max 0 (min overlap (chunk_size - 1))) 0
      omega

/-- Witness for C1 at `text = "abcdefghij"`, `chunk_size = 4`, `overlap = 1`. -/
theorem claim_C1_chunker_terminates_witness :
    1 ≤ 4 ∧
    (List.Chain' (fun a b => a < b)
      ((chunkLoop ("abcdefghij".toList) 4 (max 0 (min 1 (4 - 1))) 0).map
        (fun pr => pr.1)) ∧
     (_chunk ("abcdefghij".toList) 4 1).length ≤ ("abcdefghij".toList).length) :=
  ⟨by norm_num, claim_C1_chunker_terminates ("abcdefghij".toList) 4 1 (by norm_num)⟩

/-- Claim C2: within a single run the digest is SHA-1 of the chunk text's
UTF-8 bytes only (source path and offset do not participate), accepted texts
are pairwise distinct (a duplicate text is never upserted twice), and in the
two-identical-files scenario the run ingests exactly one pair whose metadata
carries the first file's path. -/
theorem claim_C2_dedup_by_content (entries : List Entry) (pairsF : List Pair)
    (hrun : collectPairs entries [] [] = Except.ok pairsF) :
    (∀ pr ∈ pairsF, pr.2.digest = sha1Hex (utf8Bytes pr.1)) ∧
    (pairsF.map fun pr => pr.1).Nodup ∧
    _ingest_dir "/kb" (some
      [⟨"/kb/a.md", false, ".md", "Espresso dose 18g".toList, Except.ok []⟩,
       ⟨"/kb/b.md", false, ".md", "Espresso dose 18g".toList, Except.ok []⟩]) =
      Except.ok (RunResult.ok 1,
        [[("Espresso dose 18g".toList,
           ⟨"/kb/a.md", sha1Hex (utf8Bytes "Espresso dose 18g".toList)⟩)]]) := by
  refine ⟨(collectPairs_inv entries [] [] pairsF (by simp [IngestInv]) hrun).2,
    collectPairs_fst_nodup entries pairsF hrun, ?_⟩
  simp [_ingest_dir, collectPairs, dedupChunks, _chunk, chunkLoop, pySlice]

/-- Witness for C2 on a one-file run. -/
theorem claim_C2_dedup_by_content_witness :
    collectPairs [⟨"/kb/a.md", false, ".md", "Espresso dose 18g".toList, Except.ok []⟩]
        [] [] =
      Except.ok [("Espresso dose 18g".toList,
        ⟨"/kb/a.md", sha1Hex (utf8Bytes "Espresso dose 18g".toList)⟩)] ∧
    ((∀ pr ∈ [("Espresso dose 18g".toList,
        (⟨"/kb/a.md", sha1Hex (utf8Bytes "Espresso dose 18g".toList)⟩ : Meta))],
        pr.2.digest = sha1Hex (utf8Bytes pr.1)) ∧
      (([("Espresso dose 18g".toList,
        (⟨"/kb/a.md", sha1Hex (utf8Bytes "Espresso dose 18g".toList)⟩ : Meta))] :
          List Pair).map fun pr => pr.1).Nodup ∧
      _ingest_dir "/kb" (some
        [⟨"/kb/a.md", false, ".md", "Espresso dose 18g".toList, Except.ok []⟩,
         ⟨"/kb/b.md", false, ".md", "Espresso dose 18g".toList, Except.ok []⟩]) =
        Except.ok (RunResult.ok 1,
          [[("Espresso dose 18g".toList,
             ⟨"/kb/a.md", sha1Hex (utf8Bytes "Espresso dose 18g".toList)⟩)]])) :=
  ⟨by simp [collectPairs, dedupChunks, _chunk, chunkLoop, pySlice],
   claim_C2_dedup_by_content
     [⟨"/kb/a.md", false, ".md", "Espresso dose 18g".toList, Except.ok []⟩] _
     (by simp [collectPairs, dedupChunks, _chunk, chunkLoop, pySlice])⟩

/-- Claim C3 is false on the code: `_ingest_dir` has no `try`/`except` around
extraction, so a `.pdf` whose extraction raises aborts the run; the
remaining file is never ingested.  Had the failing file been skipped, the
run would instead have ingested the second file, as the second equation
shows. -/
theorem claim_C3_counterexample :
    _ingest_dir "/kb" (some
      [⟨"/kb/bad.pdf", false, ".pdf", [], Except.error "PdfReadError"⟩,
       ⟨"/kb/good.txt", false, ".txt", "hello".toList, Except.ok []⟩]) =
      Except.error "PdfReadError" ∧
    _ingest_dir "/kb" (some
      [⟨"/kb/good.txt", false, ".txt", "hello".toList, Except.ok []⟩]) =
      Except.ok (RunResult.ok 1,
        [[("hello".toList, ⟨"/kb/good.txt", sha1Hex (utf8Bytes "hello".toList)⟩)]]) := by
  constructor
  · simp [_ingest_dir, collectPairs]
  · simp [_ingest_dir, collectPairs, dedupChunks, _chunk, chunkLoop, pySlice]

/-- Claim C3 as amended: an extraction error of a single `.pdf` file is NOT
caught by the orchestrator; it escapes `_ingest_dir` as the run's failure,
whatever files precede (as long as they themselves read cleanly) or follow
the failing one. -/
theorem claim_C3_extraction_error_aborts (dir_path path msg : String)
    (textRead : List Char) (pre post : List Entry)
    (hpre : ∀ e ∈ pre, e.isDir = false → e.suffix = ".pdf" →
        ∃ raw, e.pdfRead = Except.ok raw) :
    _ingest_dir dir_path
        (some (pre ++ ⟨path, false, ".pdf", textRead, Except.error msg⟩ :: post)) =
      Except.error msg := by
  rw [_ingest_dir, collectPairs_error path msg textRead post pre [] [] hpre]

/-- Witness for the amended C3 with an empty prefix. -/
theorem claim_C3_extraction_error_aborts_witness :
    (∀ e ∈ ([] : List Entry), e.isDir = false → e.suffix = ".pdf" →
        ∃ raw, e.pdfRead = Except.ok raw) ∧
    _ingest_dir "/kb"
        (some ([] ++ ⟨"/kb/bad.pdf", false, ".pdf", [], Except.error "boom"⟩ :: [])) =
      Except.error "boom" :=
  ⟨by simp, claim_C3_extraction_error_aborts "/kb" "/kb/bad.pdf" "boom" [] [] [] (by simp)⟩

/-- Claim C4: for a missing target directory, `_ingest_dir` returns the
structured `{"status": "error", "message": ...}` value (no exception
escapes), and that value is distinct from every success result, so a caller
can distinguish a bad input path from an empty corpus. -/
theorem claim_C4_missing_dir_structured_error (dir_path : String) :
    _ingest_dir dir_path none =
      Except.ok (RunResult.error (dir_path ++ " not found"), []) ∧
    ∀ n : Nat, RunResult.error (dir_path ++ " not found") ≠ RunResult.ok n :=
  ⟨rfl, fun n h => by cases h⟩

/-- Claim C5: for an existing directory whose traversal raises nothing, an
empty accepted set yields success with `ingested = 0` and no `upsert_texts`
call, and a non-empty accepted set is flushed in exactly one batched
`upsert_texts` call with `ingested` equal to the number of accepted pairs. -/
theorem claim_C5_single_batched_upsert (dir_path : String) (entries : List Entry)
    (pairs : List Pair) (hrun : collectPairs entries [] [] = Except.ok pairs) :
    _ingest_dir dir_path (some entries) =
      (if pairs.isEmpty then Except.ok (RunResult.ok 0, [])
       else Except.ok (RunResult.ok pairs.length, [pairs])) := by
  rw [_ingest_dir, hrun]

/-- Witness for C5 on an empty directory. -/
theorem claim_C5_single_batched_upsert_witness :
    collectPairs [] [] [] = Except.ok [] ∧
    _ingest_dir "/kb" (some []) =
      (if ([] : List Pair).isEmpty then Except.ok (RunResult.ok 0, [])
       else Except.ok (RunResult.ok ([] : List Pair).length, [([] : List Pair)])) :=
  ⟨rfl, claim_C5_single_batched_upsert "/kb" [] [] rfl⟩

/-- Claim C6: for `chunk_size ≥ 1` and `0 ≤ overlap < chunk_size` (the
clamped range; `Nat` makes the lower bound implicit), `_chunk` is the window
texts of the loop, window `i` is exactly `text[start_i : start_i + cs]`
clipped to the text length, and every character position of the input is
covered by at least one window (full coverage, no gaps). -/
theorem claim_C6_windows_cover (text : List Char) (cs ov : Nat)
    (hcs : 1 ≤ cs) (hov : ov < cs) :
    _chunk text cs ov = (chunkLoop text cs ov 0).map (fun pr => pr.2) ∧
    (∀ pr ∈ chunkLoop text cs ov 0,
        pr.2 = pySlice text pr.1 (min (pr.1 + cs) text.length)) ∧
    ∀ pos < text.length, ∃ pr ∈ chunkLoop text cs ov 0,
        pr.1 ≤ pos ∧ pos < min (pr.1 + cs) text.length := by
  refine ⟨chunk_eq_loop text cs ov hcs hov, ?_, ?_⟩
  · intro pr hpr
    exact (chunkLoop_mem _ _ _ _ _ hpr).2.2
  · intro pos hpos
    exact chunkLoop_coverage text cs ov hcs pos hpos 0 (Nat.zero_le _)

/-- Witness for C6 at `text = "abcdefghij"`, `chunk_size = 4`, `overlap = 1`. -/
theorem claim_C6_windows_cover_witness :
    (1 ≤ 4 ∧ 1 < 4) ∧
    (_chunk ("abcdefghij".toList) 4 1 =
        (chunkLoop ("abcdefghij".toList) 4 1 0).map (fun pr => pr.2) ∧
     (∀ pr ∈ chunkLoop ("abcdefghij".toList) 4 1 0,
        pr.2 = pySlice ("abcdefghij".toList) pr.1
          (min (pr.1 + 4) ("abcdefghij".toList).length)) ∧
     ∀ pos < ("abcdefghij".toList).length, ∃ pr ∈ chunkLoop ("abcdefghij".toList) 4 1 0,
        pr.1 ≤ pos ∧ pos < min (pr.1 + 4) ("abcdefghij".toList).length) :=
  ⟨⟨by norm_num, by norm_num⟩,
   claim_C6_windows_cover ("abcdefghij".toList) 4 1 (by norm_num) (by norm_num)⟩

/-- Claim C7: the spec's scenario
`chunk("abcdefghij", chunk_size=4, overlap=1)` returns exactly
`["abcd", "defg", "ghij"]`, with window starts 0, 3, 6 (the last window
clipped at position 10). -/
theorem claim_C7_scenario :
    _chunk ("abcdefghij".toList) 4 1 =
      ["abcd".toList, "defg".toList, "ghij".toList] ∧
    (chunkLoop ("abcdefghij".toList) 4 1 0).map (fun pr => pr.1) = [0, 3, 6] := by
  constructor
  · simp [_chunk, chunkLoop, pySlice]
  · simp [chunkLoop, pySlice]

/-- Claim C8 as stated quantifies over every `chunk_size`; at
`chunk_size = 0` the code emits an empty window (`text[start:start]`) for
each position, so "the returned sequence contains no empty windows" fails:
`_chunk "a" 0 0 = [""]`. -/
theorem claim_C8_counterexample :
    _chunk ['a'] 0 0 = [[]] ∧ ([] : List Char) ∈ _chunk ['a'] 0 0 := by
  constructor <;> simp [_chunk, chunkLoop, pySlice]

/-- Claim C8 as amended: chunking the empty string returns an empty sequence
for every `chunk_size` and `overlap`; and for `chunk_size ≥ 1` the returned
sequence contains no empty windows and no window starts at or beyond the
text length. -/
theorem claim_C8_no_empty_windows (text : List Char) (cs ov : Nat) (hcs : 1 ≤ cs) :
    (∀ a b : Nat, _chunk [] a b = []) ∧
    (∀ w ∈ _chunk text cs ov, w ≠ []) ∧
    ∀ pr ∈ chunkLoop text cs (max 0 (min ov (cs - 1))) 0, pr.1 < text.length := by
  refine ⟨?_, ?_, ?_⟩
  · intro a b
    simp [_chunk]
  · intro w hw
    rw [_chunk] at hw
    by_cases hemp : text.isEmpty
    · rw [if_pos hemp] at hw
      simp at hw
    · rw [if_neg hemp] at hw
      obtain ⟨pr, hpr, hw2⟩ := List.mem_map.mp hw
      obtain ⟨_, hlt, hsl⟩ := chunkLoop_mem _ _ _ _ _ hpr
      have hl := pySlice_length text pr.1 (min (pr.1 + cs) text.length)
      rw [← hsl, hw2] at hl
      intro hnil
      rw [hnil] at hl
      simp at hl
      omega
  · intro pr hpr
    exact (chunkLoop_mem _ _ _ _ _ hpr).2.1

/-- Witness for the amended C8 at `text = "abcdefghij"`, `chunk_size = 4`,
`overlap = 1`. -/
theorem claim_C8_no_empty_windows_witness :
    1 ≤ 4 ∧
    ((∀ a b : Nat, _chunk [] a b = []) ∧
     (∀ w ∈ _chunk ("abcdefghij".toList) 4 1, w ≠ []) ∧
     ∀ pr ∈ chunkLoop ("abcdefghij".toList) 4 (max 0 (min 1 (4 - 1))) 0,
        pr.1 < ("abcdefghij".toList).length) :=
  ⟨by norm_num, claim_C8_no_empty_windows ("abcdefghij".toList) 4 1 (by norm_num)⟩

/-- Claim C9 is false on the code: the status endpoint builds
`AsyncResult(task_id)` against the Celery result backend, and a task id the
backend has never seen reports the same `PENDING`/null-result payload as an
enqueued job that has not yet started, so the two responses are identical,
not distinguishable. -/
theorem claim_C9_counterexample :
    ingest_status "job-1" [] =
      ingest_status "job-1" [("job-1", ⟨"PENDING", none⟩)] := by
  decide

/-- Claim C9 as amended: polling returns the job's current backend state and
attaches the result payload exactly when the state is terminal (null
before); but polling a never-enqueued job id yields state `"PENDING"` with a
null result, the same response shape as a pending job, NOT a distinct error
case. -/
theorem claim_C9_status_poll (task_id : String) (backend : Backend)
    (rec : JobRecord) (hrec : asyncResult backend task_id = rec) :
    ingest_status task_id backend =
      ⟨task_id, rec.state, if jobReady rec then rec.result else none⟩ ∧
    ingest_status task_id [] = ⟨task_id, "PENDING", none⟩ := by
  constructor
  · simp only [ingest_status, hrec]
  · rfl

/-- Witness for the amended C9 on a backend holding one succeeded job. -/
theorem claim_C9_status_poll_witness :
    asyncResult [("j", ⟨"SUCCESS", some "done"⟩)] "j" = ⟨"SUCCESS", some "done"⟩ ∧
    (ingest_status "j" [("j", ⟨"SUCCESS", some "done"⟩)] = ⟨"j", "SUCCESS", some "done"⟩ ∧
     ingest_status "j" [] = ⟨"j", "PENDING", none⟩) :=
  ⟨by decide, claim_C9_status_poll "j" [("j", ⟨"SUCCESS", some "done"⟩)]
    ⟨"SUCCESS", some "done"⟩ (by decide)⟩

/-- Claim C10: for non-empty text, `chunk_size ≥ 1` and clamped overlap in
`[0, chunk_size - 1]`, every window with a successor has length exactly
`chunk_size`, consecutive window starts differ by exactly
`chunk_size - overlap` (the `start + 1` fallback never fires before the
final window), and consecutive windows share exactly `overlap` characters:
the last `overlap` characters of each window are the first `overlap`
characters of the next. -/
theorem claim_C10_overlap_structure (text : List Char) (cs ov : Nat)
    (hne : text ≠ []) (hcs : 1 ≤ cs) (hov : ov < cs) :
    List.Chain'
      (fun a b => b.1 = a.1 + (cs - ov) ∧ a.2.length = cs ∧
        a.2.drop (cs - ov) = b.2.take ov ∧ (b.2.take ov).length = ov)
      (chunkLoop text cs ov 0) ∧
    _chunk text cs ov = (chunkLoop text cs ov 0).map (fun pr => pr.2) :=
  ⟨chunkLoop_chain_struct text cs ov hov 0, chunk_eq_loop text cs ov hcs hov⟩

/-- Witness for C10 at `text = "abcdefghij"`, `chunk_size = 4`, `overlap = 1`. -/
theorem claim_C10_overlap_structure_witness :
    ("abcdefghij".toList ≠ [] ∧ 1 ≤ 4 ∧ 1 < 4) ∧
    (List.Chain'
      (fun a b => b.1 = a.1 + (4 - 1) ∧ a.2.length = 4 ∧
        a.2.drop (4 - 1) = b.2.take 1 ∧ (b.2.take 1).length = 1)
      (chunkLoop ("abcdefghij".toList) 4 1 0) ∧
     _chunk ("abcdefghij".toList) 4 1 =
       (chunkLoop ("abcdefghij".toList) 4 1 0).map (fun pr => pr.2)) :=
  ⟨⟨by decide, by norm_num, by norm_num⟩,
   claim_C10_overlap_structure ("abcdefghij".toList) 4 1 (by decide)
     (by norm_num) (by norm_num)⟩

end AISLM
